import Mathlib

/-!
Verification of the document-indexing core of ChatVasp
(src/vaspgo/rag/rag_indexer.py, class DocumentIndexer).

The Python functions are shallowly embedded over `List Char` (one Lean
definition per Python helper, mirroring the source line by line).  Machine
text is modelled as `List Char`; Python string falsiness (empty string) is
modelled by the empty list.  The chunk-packing while-loop is embedded with
an explicit fuel parameter because the source loop does not always
terminate; `none` models divergence of the Python loop.
-/

namespace RagIndexer

/-! ## Token approximation (DocumentIndexer._approx_token_len, lines 160-168) -/

/-- Embeds `_approx_token_len`: `0` for empty text, else `len(text) // 4`. -/
def approxTokenLen (s : List Char) : Nat :=
  if s = [] then 0 else s.length / 4

/-- The per-paragraph token count the chunk packer actually uses
(line 268: `self._approx_token_len(p["content"]) or 1`; Python `x or 1`
yields 1 when `x == 0`). -/
def paraTokens (s : List Char) : Nat :=
  if approxTokenLen s = 0 then 1 else approxTokenLen s

/-! ## Python string helpers -/

/-- Whitespace class used by Python `str.strip()` and the regex `\s`
(ASCII range; the embedding models ASCII documents). -/
def isPySpace (c : Char) : Bool :=
  c = ' ' || c = '\t' || c = '\n' || c = '\r' || c = '\x0b' || c = '\x0c'

/-- Embeds Python `str.strip()`: drop whitespace from both ends. -/
def pyStrip (s : List Char) : List Char :=
  ((s.dropWhile isPySpace).reverse.dropWhile isPySpace).reverse

/-- Helper for `splitlines`: accumulates the current line (reversed). -/
def splitlinesGo (cur : List Char) : List Char → List (List Char)
  | [] => [cur.reverse]
  | '\n' :: cs =>
    match cs with
    | [] => [cur.reverse]
    | _ :: _ => cur.reverse :: splitlinesGo [] cs
  | c :: cs => splitlinesGo (c :: cur) cs

/-- Embeds Python `str.splitlines()` for newline-terminated text:
no trailing empty line is produced for a trailing terminator, and the
empty string yields no lines. -/
def splitlines (s : List Char) : List (List Char) :=
  match s with
  | [] => []
  | _ :: _ => splitlinesGo [] s

/-! ## Heading-aware segmenter
(DocumentIndexer._split_paragraphs_with_headings, lines 170-242) -/

/-- A paragraph unit; `stop` embeds the Python dict key `end`. -/
structure Para where
  content : List Char
  headingPath : Option (List Char)
  start : Nat
  stop : Nat
deriving DecidableEq, Repr

/-- Renders the heading stack as the stored breadcrumb
(line 192: `" > ".join(heading_stack) if heading_stack else None`). -/
def renderPath (stk : List (List Char)) : Option (List Char) :=
  if stk = [] then none else some (List.intercalate (" > ".toList) stk)

/-- Embeds `flush_buf` (lines 183-195); returns the paragraph to append,
if any.  Nat subtraction models `max(0, end_pos - len(content))`. -/
def flushBuf (stk : List (List Char)) (buf : List (List Char)) (endPos : Nat) :
    Option Para :=
  if buf = [] then none
  else if pyStrip (List.intercalate ['\n'] buf) = [] then none
  else
    some ⟨pyStrip (List.intercalate ['\n'] buf), renderPath stk,
      endPos - (pyStrip (List.intercalate ['\n'] buf)).length, endPos⟩

/-- Heading level: count of leading `#` of the stripped line, forced to at
least 1 (lines 207-211). -/
def headingLevelOf (stripped : List Char) : Nat :=
  let l := (stripped.takeWhile (· == '#')).length
  if l = 0 then 1 else l

/-- Heading title: remainder after the leading `#` run, stripped (line 208). -/
def headingTitleOf (stripped : List Char) : List Char :=
  pyStrip (stripped.dropWhile (· == '#'))

/-- The heading-stack update of lines 214-216: truncate to the first
`level - 1` entries when `level` does not exceed the stack depth, then
push the new title. -/
def stackStep (stk : List (List Char)) (h : Nat × List Char) : List (List Char) :=
  (if h.1 ≤ stk.length then stk.take (h.1 - 1) else stk) ++ [h.2]

/-- Loop state of `_split_paragraphs_with_headings`. -/
structure SegState where
  stack : List (List Char)
  paras : List Para
  buf : List (List Char)
  pos : Nat
deriving DecidableEq, Repr

/-- One iteration of the line loop (lines 197-228).  Note the source does
not clear the buffer when a heading flushes it; only the blank-line branch
resets `buf`. -/
def segLine (st : SegState) (ln : List Char) : SegState :=
  let stripped := pyStrip ln
  if stripped.head? = some '#' then
    { stack := stackStep st.stack (headingLevelOf stripped, headingTitleOf stripped)
      paras := st.paras ++ (flushBuf st.stack st.buf st.pos).toList
      buf := st.buf
      pos := st.pos + ln.length + 1 }
  else if stripped = [] then
    { st with paras := st.paras ++ (flushBuf st.stack st.buf st.pos).toList
              buf := []
              pos := st.pos + ln.length + 1 }
  else
    { st with buf := st.buf ++ [ln], pos := st.pos + ln.length + 1 }

/-- Initial segmenter state (lines 178-181). -/
def initSeg : SegState := ⟨[], [], [], 0⟩

/-- Runs the line loop over all lines. -/
def segRun (lines : List (List Char)) : SegState :=
  lines.foldl segLine initSeg

/-- The paragraphs produced by the line scan, including the trailing flush
(line 231). -/
def scanParas (text : List Char) : List Para :=
  let st := segRun (splitlines text)
  st.paras ++ (flushBuf st.stack st.buf st.pos).toList

/-- Embeds `_split_paragraphs_with_headings` including the zero-paragraph
fallback (lines 233-240). -/
def splitParagraphsWithHeadings (text : List Char) : List Para :=
  let ps := scanParas text
  if ps = [] then [⟨text, none, 0, text.length⟩] else ps

/-! ## Chunk packer (DocumentIndexer._chunk_paragraphs, lines 244-327)

The while-loop is embedded with an explicit fuel parameter; `none` models
divergence of the source loop (the input cursor `i` is not advanced on the
overflow branch, and the loop need not terminate).  The emitted chunks are
tracked as the list of constituent paragraph groups (the value of `cur` at
each emission); `mkChunk` builds the chunk dict the source constructs from
`cur` at emission time (lines 277-291 and 311-325). -/

/-- The chunk dict of the source (keys content, start, end, heading_path);
`stop` embeds the key `end`. -/
structure ChunkOut where
  content : List Char
  start : Nat
  stop : Nat
  headingPath : Option (List Char)
deriving DecidableEq, Repr

/-- Python truthiness of a heading-path value: `None` and the empty string
are falsy (the generator filter on line 282 uses `x.get("heading_path")`). -/
def pyTruthy (o : Option (List Char)) : Bool :=
  match o with
  | none => false
  | some s => !s.isEmpty

/-- Heading path of a chunk: the first truthy heading path scanning the
accumulated paragraphs from the end (lines 281-284). -/
def lastTruthyPath (cur : List Para) : Option (List Char) :=
  match cur.reverse.find? (fun p => pyTruthy p.headingPath) with
  | some p => p.headingPath
  | none => none

/-- Builds a chunk dict from the accumulated paragraphs (content joined
with a blank-line separator, offsets from first and last paragraph). -/
def mkChunk (cur : List Para) : ChunkOut :=
  { content := List.intercalate ['\n', '\n'] (cur.map Para.content)
    start := (cur.headD ⟨[], none, 0, 0⟩).start
    stop := ((cur.getLast?).getD ⟨[], none, 0, 0⟩).stop
    headingPath := lastTruthyPath cur }

/-- The overlap retention loop (lines 297-303): scan the reversed
accumulation, keeping paragraphs while the running token sum stays within
the overlap budget; returns the kept list (still reversed) and the final
running sum `kept_tokens`. -/
def keepFrom (ot kt : Nat) : List Para → List Para × Nat
  | [] => ([], kt)
  | x :: xs =>
    if ot < kt + paraTokens x.content then ([], kt)
    else
      (x :: (keepFrom ot (kt + paraTokens x.content) xs).1,
        (keepFrom ot (kt + paraTokens x.content) xs).2)

/-- The overlap seed for the next accumulation (lines 298-305):
kept paragraphs restored to original order, with their token sum. -/
def seedPair (ot : Nat) (cur : List Para) : List Para × Nat :=
  let kp := keepFrom ot 0 cur.reverse
  (kp.1.reverse, kp.2)

/-- Loop state of `_chunk_paragraphs`: emitted groups, current
accumulation, its token sum, input cursor. -/
structure PackState where
  chunks : List (List Para)
  cur : List Para
  curTokens : Nat
  idx : Nat
deriving DecidableEq, Repr

/-- The emission branch (lines 276-308): append the accumulation as a
chunk, then seed the next accumulation with the overlap (empty when
`overlap_tokens` is not positive).  The input cursor is unchanged. -/
def emitState (ot : Nat) (st : PackState) : PackState :=
  if 0 < ot ∧ st.cur ≠ [] then
    let sp := seedPair ot st.cur
    { chunks := st.chunks ++ [st.cur], cur := sp.1, curTokens := sp.2, idx := st.idx }
  else
    { chunks := st.chunks ++ [st.cur], cur := [], curTokens := 0, idx := st.idx }

/-- The while-loop of lines 266-308 plus the trailing emission of
lines 311-325, with fuel.  `none` models a run that never terminates. -/
def packLoop (ct ot : Nat) (ps : List Para) : Nat → PackState → Option (List (List Para))
  | 0, _ => none
  | fuel + 1, st =>
    match ps.get? st.idx with
    | none => some (st.chunks ++ (if st.cur = [] then [] else [st.cur]))
    | some p =>
      if st.curTokens + paraTokens p.content ≤ ct ∨ st.cur = [] then
        packLoop ct ot ps fuel
          { st with cur := st.cur ++ [p]
                    curTokens := st.curTokens + paraTokens p.content
                    idx := st.idx + 1 }
      else
        packLoop ct ot ps fuel (emitState ot st)

/-- Initial packer state (lines 261-264). -/
def initPack : PackState := ⟨[], [], 0, 0⟩

/-- The emitted paragraph groups of `_chunk_paragraphs`. -/
def chunkGroups (ps : List Para) (ct ot fuel : Nat) : Option (List (List Para)) :=
  packLoop ct ot ps fuel initPack

/-- Embeds `_chunk_paragraphs`: the chunk dicts built from the emitted
groups. -/
def chunkParagraphs (ps : List Para) (ct ot fuel : Nat) : Option (List ChunkOut) :=
  (chunkGroups ps ct ot fuel).map (List.map mkChunk)

/-- Token sum of a paragraph group, with the per-paragraph floor of one
token that the packer uses. -/
def sumTokens (g : List Para) : Nat :=
  (g.map (fun p => paraTokens p.content)).sum

/-! ## Specification-side definitions for the heading-path claims -/

/-- The heading lines of a line list, as (level, title) pairs, recognized
exactly as the segmenter recognizes them. -/
def headingsOf (lines : List (List Char)) : List (Nat × List Char) :=
  lines.filterMap fun ln =>
    if (pyStrip ln).head? = some '#' then
      some (headingLevelOf (pyStrip ln), headingTitleOf (pyStrip ln))
    else none

/-- The open-heading stack after a line prefix, per the stack discipline
the code implements: truncate to the first level-minus-one entries when
the level does not exceed the depth, then push. -/
def openStackFold (lines : List (List Char)) : List (List Char) :=
  (headingsOf lines).foldl stackStep []

/-- Character extent of a line prefix: each line contributes its length
plus one for the terminator, matching the char_pos accounting. -/
def linesLen (ls : List (List Char)) : Nat :=
  (ls.map (fun l => l.length + 1)).sum

/-- A paragraph is correctly stamped when some line prefix ends exactly at
its end offset and its heading path renders the open stack of that
prefix.  Since every line contributes at least one character, the prefix
with a given extent is unique. -/
def paraProp (lines : List (List Char)) (p : Para) : Prop :=
  ∃ pre post, lines = pre ++ post ∧ linesLen pre = p.stop ∧
    p.headingPath = renderPath (openStackFold pre)

/-- Modelled from the claim wording (not from the code): a heading stays
open iff no later heading has equal or shallower level; the open ones in
document order, outermost first. -/
def declOpen : List (Nat × List Char) → List (List Char)
  | [] => []
  | h :: t => if t.all (fun h2 => h.1 < h2.1) then h.2 :: declOpen t else declOpen t

/-! ## Theorems for claims C3 and C9 -/

/-- C3: for non-empty text the token size the chunk packer uses equals
max(1, floor(length / 4)); for empty text _approx_token_len returns 0. -/
theorem c3_token_size (s : List Char) :
    (s ≠ [] → paraTokens s = max 1 (s.length / 4)) ∧ approxTokenLen [] = 0 := by
  refine ⟨fun h => ?_, rfl⟩
  simp only [paraTokens, approxTokenLen, if_neg h]
  by_cases h4 : s.length / 4 = 0
  · simp [h4]
  · simp only [h4, if_false]
    omega

/-- Witness for C3 at a concrete five-character text. -/
theorem c3_token_size_witness :
    paraTokens "abcde".toList = max 1 ("abcde".toList.length / 4) :=
  (c3_token_size "abcde".toList).1 (by decide)

/-- C9: when the line scan yields zero paragraphs, the segmenter returns
the whole text as a single unit with no heading path, start 0 and end
equal to the text length. -/
theorem c9_degenerate_fallback (text : List Char) (h : scanParas text = []) :
    splitParagraphsWithHeadings text = [⟨text, none, 0, text.length⟩] := by
  simp [splitParagraphsWithHeadings, h]

/-- Witness for C9: a single blank line produces no scan paragraphs and
falls back to one unit covering the whole text. -/
theorem c9_degenerate_fallback_witness :
    splitParagraphsWithHeadings " ".toList = [⟨" ".toList, none, 0, " ".toList.length⟩] :=
  c9_degenerate_fallback " ".toList (by decide)

/-! ## Claim C2: heading stack discipline -/

lemma flushBuf_spec {stk buf : List (List Char)} {ep : Nat} {p : Para}
    (h : flushBuf stk buf ep = some p) :
    p.stop = ep ∧ p.headingPath = renderPath stk := by
  unfold flushBuf at h
  split at h
  · simp at h
  · split at h
    · simp at h
    · cases h
      exact ⟨rfl, rfl⟩

lemma segLine_heading (st : SegState) (ln : List Char)
    (h : (pyStrip ln).head? = some '#') :
    segLine st ln =
      { stack := stackStep st.stack (headingLevelOf (pyStrip ln), headingTitleOf (pyStrip ln))
        paras := st.paras ++ (flushBuf st.stack st.buf st.pos).toList
        buf := st.buf
        pos := st.pos + ln.length + 1 } := by
  simp [segLine, h]

lemma segLine_blank (st : SegState) (ln : List Char)
    (_hh : ¬ (pyStrip ln).head? = some '#') (hb : pyStrip ln = []) :
    segLine st ln =
      { st with paras := st.paras ++ (flushBuf st.stack st.buf st.pos).toList
                buf := []
                pos := st.pos + ln.length + 1 } := by
  simp [segLine, hb]

lemma segLine_text (st : SegState) (ln : List Char)
    (hh : ¬ (pyStrip ln).head? = some '#') (hb : ¬ pyStrip ln = []) :
    segLine st ln = { st with buf := st.buf ++ [ln], pos := st.pos + ln.length + 1 } := by
  simp [segLine, hh, hb]

lemma headingsOf_append (l1 l2 : List (List Char)) :
    headingsOf (l1 ++ l2) = headingsOf l1 ++ headingsOf l2 := by
  simp [headingsOf, List.filterMap_append]

lemma openStackFold_snoc (pre : List (List Char)) (ln : List Char) :
    openStackFold (pre ++ [ln]) =
      (headingsOf [ln]).foldl stackStep (openStackFold pre) := by
  unfold openStackFold
  rw [headingsOf_append, List.foldl_append]

lemma headingsOf_single_heading (ln : List Char)
    (h : (pyStrip ln).head? = some '#') :
    headingsOf [ln] = [(headingLevelOf (pyStrip ln), headingTitleOf (pyStrip ln))] := by
  simp [headingsOf, h]

lemma headingsOf_single_other (ln : List Char)
    (h : ¬ (pyStrip ln).head? = some '#') :
    headingsOf [ln] = [] := by
  simp [headingsOf, h]

lemma linesLen_snoc (pre : List (List Char)) (ln : List Char) :
    linesLen (pre ++ [ln]) = linesLen pre + (ln.length + 1) := by
  simp [linesLen]

/-- Loop invariant of the segmenter: after consuming a prefix, the state
position is the prefix extent, the stack is the open-stack fold of the
prefix, and every emitted paragraph satisfies paraProp for the full line
list.  The conclusion covers the trailing flush as well. -/
lemma seg_inv (L : List (List Char)) :
    ∀ (rest pre : List (List Char)) (st : SegState),
      L = pre ++ rest →
      st.pos = linesLen pre →
      st.stack = openStackFold pre →
      (∀ p ∈ st.paras, paraProp L p) →
      ∀ p ∈ (rest.foldl segLine st).paras ++
          (flushBuf (rest.foldl segLine st).stack (rest.foldl segLine st).buf
            (rest.foldl segLine st).pos).toList,
        paraProp L p := by
  intro rest
  induction rest with
  | nil =>
    intro pre st hL hpos hstack hparas p hp
    simp only [List.foldl_nil] at hp
    rcases List.mem_append.mp hp with h | h
    · exact hparas p h
    · rw [Option.mem_toList, Option.mem_def] at h
      obtain ⟨hstop, hpath⟩ := flushBuf_spec h
      exact ⟨pre, [], by simpa using hL, by rw [hpos] at hstop; exact hstop.symm,
        by rw [hstack] at hpath; exact hpath⟩
  | cons ln rest ih =>
    intro pre st hL hpos hstack hparas
    simp only [List.foldl_cons]
    have hL' : L = (pre ++ [ln]) ++ rest := by simpa using hL
    by_cases hh : (pyStrip ln).head? = some '#'
    · -- heading line: flush with the old stack, then update the stack
      rw [segLine_heading st ln hh]
      apply ih (pre ++ [ln]) _ hL'
      · simp [linesLen_snoc, hpos, Nat.add_assoc]
      · rw [openStackFold_snoc, headingsOf_single_heading ln hh,
          List.foldl_cons, List.foldl_nil, hstack]
      · intro p hp
        rcases List.mem_append.mp hp with h | h
        · exact hparas p h
        · rw [Option.mem_toList, Option.mem_def] at h
          obtain ⟨hstop, hpath⟩ := flushBuf_spec h
          exact ⟨pre, ln :: rest, hL, by rw [hpos] at hstop; exact hstop.symm,
            by rw [hstack] at hpath; exact hpath⟩
    · by_cases hb : pyStrip ln = []
      · -- blank line: flush, stack unchanged
        rw [segLine_blank st ln hh hb]
        apply ih (pre ++ [ln]) _ hL'
        · simp [linesLen_snoc, hpos, Nat.add_assoc]
        · rw [openStackFold_snoc, headingsOf_single_other ln hh, List.foldl_nil, hstack]
        · intro p hp
          rcases List.mem_append.mp hp with h | h
          · exact hparas p h
          · rw [Option.mem_toList, Option.mem_def] at h
            obtain ⟨hstop, hpath⟩ := flushBuf_spec h
            exact ⟨pre, ln :: rest, hL, by rw [hpos] at hstop; exact hstop.symm,
              by rw [hstack] at hpath; exact hpath⟩
      · -- content line: buffer grows, nothing emitted
        rw [segLine_text st ln hh hb]
        apply ih (pre ++ [ln]) _ hL'
        · simp [linesLen_snoc, hpos, Nat.add_assoc]
        · rw [openStackFold_snoc, headingsOf_single_other ln hh, List.foldl_nil, hstack]
        · intro p hp
          exact hparas p hp

/-- C2 (amended): every paragraph the segmenter produces either is the
degenerate whole-text fallback with no heading path, or its heading path
renders the open-heading stack obtained by folding the truncate-and-push
stack discipline over the headings of the unique line prefix ending at
the paragraph flush offset. -/
theorem c2_heading_stack (text : List Char) (p : Para)
    (hp : p ∈ splitParagraphsWithHeadings text) :
    (scanParas text = [] ∧ p = ⟨text, none, 0, text.length⟩) ∨
    paraProp (splitlines text) p := by
  unfold splitParagraphsWithHeadings at hp
  by_cases h : scanParas text = []
  · left
    simp only [h, if_pos rfl, List.mem_singleton] at hp
    · exact ⟨h, by simpa using hp⟩
  · right
    simp only [if_neg h] at hp
    have := seg_inv (splitlines text) (splitlines text) [] initSeg rfl rfl rfl
      (by intro q hq; simp [initSeg] at hq)
    apply this
    simpa [scanParas, segRun] using hp

/-- Witness for C2 (amended) at a concrete document with one heading. -/
theorem c2_heading_stack_witness :
    (scanParas "# A\npara".toList = [] ∧
      (⟨"para".toList, some "A".toList, 5, 9⟩ : Para) =
        ⟨"# A\npara".toList, none, 0, "# A\npara".toList.length⟩) ∨
    paraProp (splitlines "# A\npara".toList) ⟨"para".toList, some "A".toList, 5, 9⟩ :=
  c2_heading_stack "# A\npara".toList ⟨"para".toList, some "A".toList, 5, 9⟩ (by decide)

/-- Counterexample for C2 as stated: on a document whose heading levels
step down by one from a deeper start, the paragraph keeps both titles,
while the titles of headings not closed by an equal-or-shallower later
heading are just the second title. -/
theorem c2_counterexample :
    (splitParagraphsWithHeadings "### X\n## Y\npara".toList).map Para.headingPath
        = [some "X > Y".toList] ∧
    renderPath (declOpen (headingsOf (splitlines "### X\n## Y\npara".toList)))
        = some "Y".toList ∧
    some "X > Y".toList ≠ some "Y".toList := by
  exact ⟨by decide, by decide, by decide⟩

/-! ## Claims C1, C4, C5, C10: the chunk packer -/

lemma sumTokens_append (a b : List Para) :
    sumTokens (a ++ b) = sumTokens a + sumTokens b := by
  simp [sumTokens]

lemma sumTokens_reverse (a : List Para) : sumTokens a.reverse = sumTokens a := by
  simp [sumTokens, List.map_reverse, List.sum_reverse]

lemma keepFrom_le (ot : Nat) : ∀ (xs : List Para) (kt : Nat), kt ≤ ot →
    (keepFrom ot kt xs).2 ≤ ot := by
  intro xs
  induction xs with
  | nil => intro kt h; simpa [keepFrom] using h
  | cons x xs ih =>
    intro kt h
    by_cases hb : ot < kt + paraTokens x.content
    · simpa [keepFrom, hb] using h
    · simpa [keepFrom, hb] using ih (kt + paraTokens x.content) (by omega)

lemma keepFrom_sum (ot : Nat) : ∀ (xs : List Para) (kt : Nat),
    (keepFrom ot kt xs).2 = kt + sumTokens (keepFrom ot kt xs).1 := by
  intro xs
  induction xs with
  | nil => intro kt; simp [keepFrom, sumTokens]
  | cons x xs ih =>
    intro kt
    by_cases hb : ot < kt + paraTokens x.content
    · simp [keepFrom, hb, sumTokens]
    · have hxs := ih (kt + paraTokens x.content)
      simp only [sumTokens] at hxs
      simp [keepFrom, hb, sumTokens]
      omega

lemma keepFrom_take (ot : Nat) : ∀ (xs : List Para) (kt : Nat),
    ∃ t, (keepFrom ot kt xs).1 ++ t = xs := by
  intro xs
  induction xs with
  | nil => intro kt; exact ⟨[], rfl⟩
  | cons x xs ih =>
    intro kt
    by_cases hb : ot < kt + paraTokens x.content
    · exact ⟨x :: xs, by simp [keepFrom, hb]⟩
    · obtain ⟨t, ht⟩ := ih (kt + paraTokens x.content)
      exact ⟨t, by simp [keepFrom, hb, ht]⟩

lemma seedPair_suffix (ot : Nat) (cur : List Para) :
    ∃ t, t ++ (seedPair ot cur).1 = cur := by
  obtain ⟨t, ht⟩ := keepFrom_take ot cur.reverse 0
  refine ⟨t.reverse, ?_⟩
  have := congrArg List.reverse ht
  simpa [seedPair] using this

lemma seedPair_le (ot : Nat) (cur : List Para) : (seedPair ot cur).2 ≤ ot := by
  simpa [seedPair] using keepFrom_le ot cur.reverse 0 (Nat.zero_le ot)

lemma seedPair_sum (ot : Nat) (cur : List Para) :
    (seedPair ot cur).2 = sumTokens (seedPair ot cur).1 := by
  have := keepFrom_sum ot cur.reverse 0
  simpa [seedPair, sumTokens_reverse] using this

/-- A good emitted group: within the chunk budget, or a lone paragraph
whose own token size exceeds the budget. -/
def GoodGroup (ct : Nat) (g : List Para) : Prop :=
  sumTokens g ≤ ct ∨ ∃ p, g = [p] ∧ ct < paraTokens p.content

/-- Packer loop invariant. -/
def PackInv (ct : Nat) (st : PackState) : Prop :=
  (∀ g ∈ st.chunks, GoodGroup ct g) ∧ (st.cur = [] ∨ GoodGroup ct st.cur) ∧
    st.curTokens = sumTokens st.cur

lemma suffix_of_singleton {t s : List Para} {p : Para} (h : t ++ s = [p]) :
    s = [] ∨ s = [p] := by
  rcases t with _ | ⟨a, t⟩
  · right; simpa using h
  · left
    rcases s with _ | ⟨b, s⟩
    · rfl
    · exfalso
      have hlen := congrArg List.length h
      simp only [List.length_cons, List.length_append, List.length_singleton, List.length_nil] at hlen
      omega

lemma emitState_inv {ct : Nat} (ot : Nat) {st : PackState}
    (h : PackInv ct st) (hcur : st.cur ≠ []) : PackInv ct (emitState ot st) := by
  obtain ⟨hchunks, hcurg, htok⟩ := h
  have hgood : GoodGroup ct st.cur := hcurg.resolve_left hcur
  have hchunks' : ∀ g ∈ st.chunks ++ [st.cur], GoodGroup ct g := by
    intro g hg
    rcases List.mem_append.mp hg with h | h
    · exact hchunks g h
    · rw [List.mem_singleton] at h
      exact h ▸ hgood
  unfold emitState
  by_cases hb : 0 < ot ∧ st.cur ≠ []
  · rw [if_pos hb]
    show PackInv ct
      ⟨st.chunks ++ [st.cur], (seedPair ot st.cur).1, (seedPair ot st.cur).2, st.idx⟩
    refine ⟨hchunks', ?_, seedPair_sum ot st.cur⟩
    obtain ⟨t, ht⟩ := seedPair_suffix ot st.cur
    rcases hgood with hle | ⟨p, hp, hodd⟩
    · right; left
      calc sumTokens (seedPair ot st.cur).1
          ≤ sumTokens t + sumTokens (seedPair ot st.cur).1 := Nat.le_add_left _ _
        _ = sumTokens st.cur := by rw [← sumTokens_append, ht]
        _ ≤ ct := hle
    · rcases suffix_of_singleton (ht.trans hp) with h0 | h0
      · left; exact h0
      · right; right; exact ⟨p, h0, hodd⟩
  · rw [if_neg hb]
    exact ⟨hchunks', Or.inl rfl, by simp [sumTokens]⟩

lemma packLoop_good (ct ot : Nat) (ps : List Para) :
    ∀ (fuel : Nat) (st : PackState) (groups : List (List Para)),
      PackInv ct st → packLoop ct ot ps fuel st = some groups →
      ∀ g ∈ groups, GoodGroup ct g := by
  intro fuel
  induction fuel with
  | zero => intro st groups _ h; simp [packLoop] at h
  | succ n ih =>
    intro st groups hinv hrun g hg
    rw [packLoop] at hrun
    obtain ⟨hchunks, hcurg, htok⟩ := hinv
    split at hrun
    · -- input exhausted: final emission
      simp only [Option.some.injEq] at hrun
      subst hrun
      rcases List.mem_append.mp hg with h | h
      · exact hchunks g h
      · by_cases hc : st.cur = []
        · simp [hc] at h
        · rw [if_neg hc, List.mem_singleton] at h
          exact h ▸ (hcurg.resolve_left hc)
    · next p heq =>
      by_cases hcond : st.curTokens + paraTokens p.content ≤ ct ∨ st.cur = []
      · rw [if_pos hcond] at hrun
        have hsingle : sumTokens [p] = paraTokens p.content := by simp [sumTokens]
        refine ih
          { st with cur := st.cur ++ [p]
                    curTokens := st.curTokens + paraTokens p.content
                    idx := st.idx + 1 }
          groups ⟨hchunks, ?_, ?_⟩ hrun g hg
        · rcases hcond with hle | hemp
          · right; left
            rw [sumTokens_append]
            omega
          · by_cases hpt : paraTokens p.content ≤ ct
            · right; left
              simp [hemp, sumTokens, hpt]
            · right; right
              exact ⟨p, by simp [hemp], by omega⟩
        · show st.curTokens + paraTokens p.content = sumTokens (st.cur ++ [p])
          rw [sumTokens_append, htok]
          omega
      · rw [if_neg hcond] at hrun
        push_neg at hcond
        exact ih _ groups (emitState_inv ot ⟨hchunks, hcurg, htok⟩ hcond.2) hrun g hg

/-- C1 (amended): every emitted group of the chunk packer either has
per-paragraph token sum at most the chunk budget, or consists of exactly
one paragraph whose own token size exceeds the budget.  The token size of
the joined content may exceed the budget by the blank-line separators, so
the bound holds for the paragraph token sum, not for the content. -/
theorem c1_chunk_budget (ps : List Para) (ct ot fuel : Nat)
    (groups : List (List Para)) (h : chunkGroups ps ct ot fuel = some groups) :
    ∀ g ∈ groups, sumTokens g ≤ ct ∨ ∃ p, g = [p] ∧ ct < paraTokens p.content :=
  packLoop_good ct ot ps fuel initPack groups
    ⟨by simp [initPack], Or.inl rfl, rfl⟩ h

/-- Witness for C1 (amended) on a one-paragraph input. -/
theorem c1_chunk_budget_witness :
    sumTokens [(⟨"aaaa".toList, none, 0, 4⟩ : Para)] ≤ 1 ∨
      ∃ p, [(⟨"aaaa".toList, none, 0, 4⟩ : Para)] = [p] ∧ 1 < paraTokens p.content :=
  c1_chunk_budget [⟨"aaaa".toList, none, 0, 4⟩] 1 0 3
    [[⟨"aaaa".toList, none, 0, 4⟩]] (by decide) _ (by simp)

/-- The six-small-paragraph document refuting C1 as stated. -/
def c1Doc : List Char := "aaa\n\naaa\n\naaa\n\naaa\n\naaa\n\naaa".toList

/-- Counterexample for C1 as stated: six three-character paragraphs under
chunk budget 6 are all packed into one chunk (each paragraph counts one
token and the sum 6 fits), yet the six blank-line separators make the
joined content 28 characters, token size 7, exceeding the budget while
the chunk holds six paragraphs, none oversize. -/
theorem c1_counterexample :
    chunkGroups (splitParagraphsWithHeadings c1Doc) 6 0 20
        = some [splitParagraphsWithHeadings c1Doc] ∧
    (splitParagraphsWithHeadings c1Doc).length = 6 ∧
    (∀ p ∈ splitParagraphsWithHeadings c1Doc, paraTokens p.content = 1) ∧
    approxTokenLen (mkChunk (splitParagraphsWithHeadings c1Doc)).content = 7 ∧
    ¬ approxTokenLen (mkChunk (splitParagraphsWithHeadings c1Doc)).content ≤ 6 :=
  ⟨by decide, by decide, by decide, by decide, by decide⟩

/-- First paragraph of the diverging input: four characters, one token. -/
def cycleA : Para := ⟨"aaaa".toList, none, 0, 4⟩

/-- Second paragraph of the diverging input: eight characters, two tokens. -/
def cycleB : Para := ⟨"aaaaaaaa".toList, none, 6, 14⟩

/-- Once the accumulation equals the overlap seed and the pending
paragraph still overflows, the loop re-emits the seed forever: the state
components other than the emitted-chunk list never change. -/
lemma c10_cycle : ∀ (fuel : Nat) (chks : List (List Para)),
    packLoop 1 1 [cycleA, cycleB] fuel ⟨chks, [cycleA], 1, 1⟩ = none := by
  intro fuel
  induction fuel with
  | zero => intro chks; rfl
  | succ n ih =>
    intro chks
    have tA : paraTokens cycleA.content = 1 := by decide
    have tB : paraTokens cycleB.content = 2 := by decide
    have hseed1 : (seedPair 1 [cycleA]).1 = [cycleA] := by decide
    have hseed2 : (seedPair 1 [cycleA]).2 = 1 := by decide
    have hstep : packLoop 1 1 [cycleA, cycleB] (n + 1) ⟨chks, [cycleA], 1, 1⟩
        = packLoop 1 1 [cycleA, cycleB] n ⟨chks ++ [[cycleA]], [cycleA], 1, 1⟩ := by
      rw [packLoop]
      norm_num [tB, emitState, hseed1, hseed2]
    rw [hstep]
    exact ih (chks ++ [[cycleA]])

/-- C10: the chunk-packing loop does not terminate on every input with
chunk budget at least 1 and overlap budget at least 0.  With chunk budget
1 and overlap budget 1, a one-token paragraph followed by a two-token
paragraph makes the loop re-emit the overlap seed forever: no fuel
suffices. -/
theorem c10_nontermination (fuel : Nat) :
    chunkGroups [cycleA, cycleB] 1 1 fuel = none := by
  match fuel with
  | 0 => rfl
  | n + 1 =>
    have tA : paraTokens cycleA.content = 1 := by decide
    have h1 : chunkGroups [cycleA, cycleB] 1 1 (n + 1)
        = packLoop 1 1 [cycleA, cycleB] n ⟨[], [cycleA], 1, 1⟩ := by
      rw [chunkGroups, packLoop]
      norm_num [initPack, tA]
    rw [h1]
    exact c10_cycle n []

/-- C4: at every non-final chunk emission the next accumulation is seeded
with a suffix of the emitted group, whole paragraphs in original order,
whose combined token size is at most the overlap budget; with overlap
budget zero the next accumulation starts empty.  The last conjunct ties
the emission transition to the packer loop itself. -/
theorem c4_overlap_bound (ot : Nat) (st : PackState) (hcur : st.cur ≠ []) :
    ((emitState ot st).chunks = st.chunks ++ [st.cur]) ∧
    ((emitState ot st).idx = st.idx) ∧
    (0 < ot → (∃ t, t ++ (emitState ot st).cur = st.cur) ∧
      sumTokens (emitState ot st).cur ≤ ot) ∧
    (ot = 0 → (emitState ot st).cur = []) ∧
    (∀ (ct : Nat) (ps : List Para) (fuel : Nat) (p : Para),
      ps.get? st.idx = some p →
      ¬ (st.curTokens + paraTokens p.content ≤ ct) →
      packLoop ct ot ps (fuel + 1) st = packLoop ct ot ps fuel (emitState ot st)) := by
  refine ⟨?_, ?_, ?_, ?_, ?_⟩
  · unfold emitState
    by_cases hb : 0 < ot ∧ st.cur ≠ []
    · rw [if_pos hb]
    · rw [if_neg hb]
  · unfold emitState
    by_cases hb : 0 < ot ∧ st.cur ≠ []
    · rw [if_pos hb]
    · rw [if_neg hb]
  · intro hot
    unfold emitState
    rw [if_pos ⟨hot, hcur⟩]
    show (∃ t, t ++ (seedPair ot st.cur).1 = st.cur) ∧
      sumTokens (seedPair ot st.cur).1 ≤ ot
    refine ⟨seedPair_suffix ot st.cur, ?_⟩
    rw [← seedPair_sum]
    exact seedPair_le ot st.cur
  · intro h0
    unfold emitState
    rw [if_neg (by simp [h0])]
  · intro ct ps fuel p hget hcond
    rw [packLoop, hget]
    simp only [if_neg (by rw [not_or]; exact ⟨hcond, hcur⟩)]

/-- Witness for C4 at a concrete one-paragraph accumulation. -/
theorem c4_overlap_bound_witness :
    (∃ t, t ++ (emitState 1 ⟨[], [⟨"aaaa".toList, none, 0, 4⟩], 1, 0⟩).cur
        = (⟨[], [⟨"aaaa".toList, none, 0, 4⟩], 1, 0⟩ : PackState).cur) ∧
    sumTokens (emitState 1 ⟨[], [⟨"aaaa".toList, none, 0, 4⟩], 1, 0⟩).cur ≤ 1 :=
  (c4_overlap_bound 1 ⟨[], [⟨"aaaa".toList, none, 0, 4⟩], 1, 0⟩
    (by decide)).2.2.1 (by decide)

/-- C5: when the last paragraph of the emitted accumulation alone exceeds
the overlap budget, the packer retains zero paragraphs for overlap and
the next accumulation starts empty; and a lone paragraph whose token size
exceeds the chunk budget (and the overlap budget) is emitted as its own
chunk unmodified, the following accumulation starting empty. -/
theorem c5_oversize_overlap :
    (∀ (ot : Nat) (st : PackState) (p : Para), st.cur.getLast? = some p →
      ot < paraTokens p.content → (emitState ot st).cur = []) ∧
    (∀ (p q : Para) (ct ot fuel : Nat), ct < paraTokens p.content →
      ot < paraTokens p.content → paraTokens q.content ≤ ct →
      chunkGroups [p, q] ct ot (fuel + 1 + 1 + 1 + 1) = some [[p], [q]]) := by
  constructor
  · intro ot st p hlast hot
    have hcur : st.cur ≠ [] := by
      intro h
      rw [h] at hlast
      simp at hlast
    unfold emitState
    by_cases hb : 0 < ot ∧ st.cur ≠ []
    · rw [if_pos hb]
      show (seedPair ot st.cur).1 = []
      have hrev : st.cur.reverse.head? = some p := by
        rw [List.head?_reverse]
        exact hlast
      obtain ⟨rest, hrest⟩ : ∃ rest, st.cur.reverse = p :: rest := by
        cases hc : st.cur.reverse with
        | nil => rw [hc] at hrev; simp at hrev
        | cons a l =>
          rw [hc] at hrev
          simp only [List.head?_cons, Option.some.injEq] at hrev
          exact ⟨l, by rw [hrev]⟩
      unfold seedPair
      rw [hrest]
      simp [keepFrom, hot]
    · rw [if_neg hb]
  · intro p q ct ot fuel h1 h2 h3
    have hnpq : ¬ (paraTokens p.content + paraTokens q.content ≤ ct ∨
        ([p] : List Para) = []) := by
      rw [not_or]
      exact ⟨by omega, by simp⟩
    have hq : (0 : Nat) + paraTokens q.content ≤ ct := by omega
    have hemit : emitState ot ⟨[], [p], paraTokens p.content, 1⟩
        = ⟨[[p]], [], 0, 1⟩ := by
      unfold emitState
      rcases Nat.eq_zero_or_pos ot with h0 | hpos
      · rw [if_neg (by simp [h0])]
        simp
      · rw [if_pos ⟨hpos, by simp⟩]
        show (⟨[] ++ [[p]], (seedPair ot [p]).1, (seedPair ot [p]).2, 1⟩ : PackState)
          = ⟨[[p]], [], 0, 1⟩
        have k1 : (seedPair ot [p]).1 = [] := by
          unfold seedPair
          simp [keepFrom, h2]
        have k2 : (seedPair ot [p]).2 = 0 := by
          unfold seedPair
          simp [keepFrom, h2]
        rw [k1, k2]
        simp
    have s1 : ∀ f, packLoop ct ot [p, q] (f + 1) initPack
        = packLoop ct ot [p, q] f ⟨[], [p], paraTokens p.content, 1⟩ := by
      intro f
      rw [packLoop]
      simp [initPack]
    have s2 : ∀ f, packLoop ct ot [p, q] (f + 1) ⟨[], [p], paraTokens p.content, 1⟩
        = packLoop ct ot [p, q] f ⟨[[p]], [], 0, 1⟩ := by
      intro f
      rw [packLoop]
      simp [hnpq, hemit]
      intro hcon
      exact absurd hcon (by omega)
    have s3 : ∀ f, packLoop ct ot [p, q] (f + 1) ⟨[[p]], [], 0, 1⟩
        = packLoop ct ot [p, q] f ⟨[[p]], [q], paraTokens q.content, 2⟩ := by
      intro f
      rw [packLoop]
      simp [hq]
    have s4 : ∀ f, packLoop ct ot [p, q] (f + 1) ⟨[[p]], [q], paraTokens q.content, 2⟩
        = some [[p], [q]] := by
      intro f
      rw [packLoop]
      simp
    rw [chunkGroups, s1, s2, s3, s4]

/-- Witness for C5: a two-token paragraph with one-token budgets is
emitted alone and the following one-token paragraph forms its own chunk. -/
theorem c5_oversize_overlap_witness :
    chunkGroups [⟨"aaaaaaaa".toList, none, 0, 8⟩, ⟨"aaaa".toList, none, 10, 14⟩]
        1 1 (0 + 1 + 1 + 1 + 1)
      = some [[⟨"aaaaaaaa".toList, none, 0, 8⟩], [⟨"aaaa".toList, none, 10, 14⟩]] :=
  c5_oversize_overlap.2 ⟨"aaaaaaaa".toList, none, 0, 8⟩ ⟨"aaaa".toList, none, 10, 14⟩
    1 1 0 (by decide) (by decide) (by decide)

/-! ## Claim C6: retry wrapper
(DocumentIndexer._fetch_url_with_retry, lines 78-97)

The fetch attempts are modelled by an oracle `f : Nat -> Except PyExc
(List Char)` giving the outcome of attempt k of the whole fallback chain.
The except clause on line 87 catches aiohttp.ClientError,
aiohttp.ServerError and asyncio.TimeoutError; any other exception hits
the catch-all on line 95 and is re-raised at once. -/

/-- Exception classes relevant to the retry wrapper; the id distinguishes
separate exception instances. -/
inductive PyExc where
  | clientError (id : Nat)
  | serverError (id : Nat)
  | timeoutError (id : Nat)
  | otherError (id : Nat)
deriving DecidableEq, Repr

/-- Transport-class exceptions: exactly the tuple of the first except
clause. -/
def PyExc.isTransport : PyExc → Bool
  | .clientError _ => true
  | .serverError _ => true
  | .timeoutError _ => true
  | .otherError _ => false

/-- max_retries of line 82. -/
def maxRetries : Nat := 3

/-- The for-loop of lines 84-97.  `remaining` counts the attempts left
after the current one, so `remaining = maxRetries - 1 - attempt` and the
guard `attempt < max_retries - 1` becomes `remaining > 0`.  The returned
list records the backoff sleeps, in order, each `2 ^ attempt` seconds. -/
def retryGo (f : Nat → Except PyExc (List Char)) :
    Nat → Nat → Except PyExc (List Char) × List Nat
  | remaining, attempt =>
    match f attempt with
    | .ok v => (.ok v, [])
    | .error e =>
      if e.isTransport then
        match remaining with
        | 0 => (.error e, [])
        | r + 1 =>
          ((retryGo f r (attempt + 1)).1, 2 ^ attempt :: (retryGo f r (attempt + 1)).2)
      else (.error e, [])

/-- Embeds `_fetch_url_with_retry`: start at attempt 0 with
`maxRetries - 1` retries in reserve. -/
def fetchUrlWithRetry (f : Nat → Except PyExc (List Char)) :
    Except PyExc (List Char) × List Nat :=
  retryGo f (maxRetries - 1) 0

/-- C6: the retry wrapper makes at most 3 attempts with backoff sleeps
1s then 2s (2 ^ attempt, attempt from 0), retries only transport-class
failures, propagates any other exception immediately, re-raises the last
transport-class exception after exhausting retries, and returns the
successful value when a transport failure on attempts 1 and 2 is followed
by success on attempt 3. -/
theorem c6_retry (f : Nat → Except PyExc (List Char)) :
    ((fetchUrlWithRetry f).2 = [] ∨ (fetchUrlWithRetry f).2 = [1] ∨
      (fetchUrlWithRetry f).2 = [1, 2]) ∧
    (∀ v, f 0 = .ok v → fetchUrlWithRetry f = (.ok v, [])) ∧
    (∀ e, f 0 = .error e → e.isTransport = false → fetchUrlWithRetry f = (.error e, [])) ∧
    (∀ e v, f 0 = .error e → e.isTransport = true → f 1 = .ok v →
      fetchUrlWithRetry f = (.ok v, [1])) ∧
    (∀ e e', f 0 = .error e → e.isTransport = true → f 1 = .error e' →
      e'.isTransport = false → fetchUrlWithRetry f = (.error e', [1])) ∧
    (∀ e e' v, f 0 = .error e → e.isTransport = true → f 1 = .error e' →
      e'.isTransport = true → f 2 = .ok v → fetchUrlWithRetry f = (.ok v, [1, 2])) ∧
    (∀ e e' e'', f 0 = .error e → e.isTransport = true → f 1 = .error e' →
      e'.isTransport = true → f 2 = .error e'' →
      fetchUrlWithRetry f = (.error e'', [1, 2])) := by
  have expand : ∀ (r a : Nat), retryGo f (r + 1) a =
      (match f a with
      | .ok v => (.ok v, [])
      | .error e =>
        if e.isTransport then
          ((retryGo f r (a + 1)).1, 2 ^ a :: (retryGo f r (a + 1)).2)
        else (.error e, [])) := by
    intro r a
    rw [retryGo]
  have base : ∀ (a : Nat), retryGo f 0 a =
      (match f a with
      | .ok v => (.ok v, [])
      | .error e => (.error e, [])) := by
    intro a
    rw [retryGo]
    rcases f a with e | v
    · by_cases ht : e.isTransport <;> simp [ht]
    · rfl
  refine ⟨?_, ?_, ?_, ?_, ?_, ?_, ?_⟩
  case _ =>
    unfold fetchUrlWithRetry maxRetries
    rw [expand]
    rcases h0 : f 0 with e0 | v0
    · by_cases t0 : e0.isTransport
      · simp only [t0, if_pos]
        rw [expand]
        rcases h1 : f 1 with e1 | v1
        · by_cases t1 : e1.isTransport
          · simp only [t1, if_pos]
            rw [base]
            rcases h2 : f 2 with e2 | v2
            · right; right; rfl
            · right; right; rfl
          · simp [t1]
        · simp
      · simp [t0]
    · simp
  all_goals
    unfold fetchUrlWithRetry maxRetries
  · intro v h0
    rw [expand, h0]
  · intro e h0 ht
    rw [expand, h0]
    simp [ht]
  · intro e v h0 ht h1
    rw [expand, h0]
    simp only [ht, if_pos]
    rw [expand, h1]
    rfl
  · intro e e' h0 ht h1 ht'
    rw [expand, h0]
    simp only [ht, if_pos]
    rw [expand, h1]
    simp [ht']
  · intro e e' v h0 ht h1 ht' h2
    rw [expand, h0]
    simp only [ht, if_pos]
    rw [expand, h1]
    simp only [ht', if_pos]
    rw [base, h2]
    rfl
  · intro e e' e'' h0 ht h1 ht' h2
    rw [expand, h0]
    simp only [ht, if_pos]
    rw [expand, h1]
    simp only [ht', if_pos]
    rw [base, h2]
    rfl

/-- Witness for C6: transport failures on attempts 1 and 2 and success on
attempt 3 return the fetched value after sleeping 1s then 2s. -/
theorem c6_retry_witness :
    fetchUrlWithRetry (fun n =>
      match n with
      | 0 => .error (.clientError 0)
      | 1 => .error (.timeoutError 1)
      | _ => .ok "done".toList)
      = (.ok "done".toList, [1, 2]) :=
  (c6_retry (fun n =>
      match n with
      | 0 => .error (.clientError 0)
      | 1 => .error (.timeoutError 1)
      | _ => .ok "done".toList)).2.2.2.2.2.1
    (.clientError 0) (.timeoutError 1) "done".toList rfl rfl rfl rfl rfl

/-! ## Claim C7: indexing orchestrator
(DocumentIndexer.index_documents, lines 372-408, with _split_text in
smart-chunking mode, lines 329-340)

The fetch is an oracle per source; the memory store is an oracle `addOk`
telling whether the n-th add call (globally counted) succeeds, with the
stored records accumulated explicitly.  An exception anywhere inside the
per-source body is caught by the try of line 379 and the loop continues;
records stored before a failing add remain stored.  `none` models a batch
that hangs because the chunk packer diverges on a fetched text. -/

/-- The record the orchestrator persists per chunk: content plus metadata
source, chunk_index, and heading_path only when truthy (lines 388-394). -/
structure MemRecord where
  content : List Char
  source : List Char
  chunkIndex : Nat
  headingPath : Option (List Char)
deriving DecidableEq, Repr

/-- Builds the stored record of chunk number i of a source. -/
def mkRecord (src : List Char) (i : Nat) (c : ChunkOut) : MemRecord :=
  ⟨c.content, src, i, if pyTruthy c.headingPath then c.headingPath else none⟩

/-- The records of a chunk list starting at chunk index i. -/
def recordsFrom (src : List Char) (i : Nat) : List ChunkOut → List MemRecord
  | [] => []
  | c :: rest => mkRecord src i c :: recordsFrom src (i + 1) rest

/-- The records of a whole chunk list, indexed from 0. -/
def recordsOf (src : List Char) (chunks : List ChunkOut) : List MemRecord :=
  recordsFrom src 0 chunks

/-- The add loop of lines 387-402: chunk index i, global add-call counter
ctr, accumulated store.  Returns whether all adds succeeded, the next
counter value, and the store contents. -/
def storeChunks (addOk : Nat → Bool) (src : List Char) :
    List ChunkOut → Nat → Nat → List MemRecord → Bool × Nat × List MemRecord
  | [], _, ctr, acc => (true, ctr, acc)
  | c :: rest, i, ctr, acc =>
    if addOk ctr then storeChunks addOk src rest (i + 1) (ctr + 1) (acc ++ [mkRecord src i c])
    else (false, ctr + 1, acc)

/-- Embeds `_split_text` with use_smart_chunking (the constructor
default): segment, then pack with the configured budgets. -/
def splitTextSmart (text : List Char) (ct ot fuel : Nat) : Option (List ChunkOut) :=
  chunkParagraphs (splitParagraphsWithHeadings text) ct ot fuel

/-- Embeds `index_documents`: sources processed strictly in order; a
fetch error is caught and the loop continues; a failing add aborts the
rest of that source only, leaving earlier records stored and the source
uncounted; a fully stored source adds its chunk count to the total. -/
def indexDocuments (fetch : List Char → Except PyExc (List Char))
    (addOk : Nat → Bool) (ct ot fuel : Nat) :
    List (List Char) → Nat → Nat × List MemRecord → Option (Nat × List MemRecord)
  | [], _, acc => some acc
  | s :: rest, ctr, (total, stored) =>
    match fetch s with
    | .error _ => indexDocuments fetch addOk ct ot fuel rest ctr (total, stored)
    | .ok text =>
      match splitTextSmart text ct ot fuel with
      | none => none
      | some chunks =>
        match storeChunks addOk s chunks 0 ctr stored with
        | (true, ctr', stored') =>
          indexDocuments fetch addOk ct ot fuel rest ctr' (total + chunks.length, stored')
        | (false, ctr', stored') =>
          indexDocuments fetch addOk ct ot fuel rest ctr' (total, stored')

lemma storeChunks_all_ok (addOk : Nat → Bool) (src : List Char) :
    ∀ (chunks : List ChunkOut) (i ctr : Nat) (acc : List MemRecord),
      (∀ k, k < chunks.length → addOk (ctr + k) = true) →
      storeChunks addOk src chunks i ctr acc
        = (true, ctr + chunks.length, acc ++ recordsFrom src i chunks) := by
  intro chunks
  induction chunks with
  | nil => intro i ctr acc _; simp [storeChunks, recordsFrom]
  | cons c rest ih =>
    intro i ctr acc hok
    have h0 : addOk ctr = true := by simpa using hok 0 (by simp)
    have hok' : ∀ k, k < rest.length → addOk (ctr + 1 + k) = true := by
      intro k hk
      have hcall := hok (k + 1) (by simp only [List.length_cons]; omega)
      have harith : ctr + 1 + k = ctr + (k + 1) := by omega
      rw [harith]
      exact hcall
    rw [storeChunks, if_pos h0, ih (i + 1) (ctr + 1) (acc ++ [mkRecord src i c]) hok']
    simp only [List.length_cons, recordsFrom, Prod.mk.injEq, true_and]
    exact ⟨by omega, by simp⟩

lemma storeChunks_fail_at (addOk : Nat → Bool) (src : List Char) :
    ∀ (j : Nat) (chunks : List ChunkOut) (i ctr : Nat) (acc : List MemRecord),
      j < chunks.length →
      (∀ k, k < j → addOk (ctr + k) = true) →
      addOk (ctr + j) = false →
      storeChunks addOk src chunks i ctr acc
        = (false, ctr + j + 1, acc ++ recordsFrom src i (chunks.take j)) := by
  intro j
  induction j with
  | zero =>
    intro chunks i ctr acc hlt _ hfail
    rcases chunks with _ | ⟨c, rest⟩
    · simp at hlt
    · rw [storeChunks, if_neg (by simpa using hfail)]
      simp [recordsFrom]
  | succ j ih =>
    intro chunks i ctr acc hlt hok hfail
    rcases chunks with _ | ⟨c, rest⟩
    · simp at hlt
    · have h0 : addOk ctr = true := by simpa using hok 0 (by omega)
      have hok' : ∀ k, k < j → addOk (ctr + 1 + k) = true := by
        intro k hk
        have hcall := hok (k + 1) (by omega)
        have harith : ctr + 1 + k = ctr + (k + 1) := by omega
        rw [harith]
        exact hcall
      have hfail' : addOk (ctr + 1 + j) = false := by
        have harith : ctr + 1 + j = ctr + (j + 1) := by omega
        rw [harith]
        exact hfail
      rw [storeChunks, if_pos h0,
        ih rest (i + 1) (ctr + 1) (acc ++ [mkRecord src i c])
          (by simp only [List.length_cons] at hlt; omega) hok' hfail']
      simp only [List.take_succ_cons, recordsFrom, Prod.mk.injEq, true_and]
      exact ⟨by omega, by simp⟩

/-- C7 (amended): the orchestrator processes sources strictly in order;
a fetch exception is caught at the orchestrator boundary and the batch
continues with the next source; a fully stored source appends exactly its
chunk records, metadata chunk_index = 0-based position with heading_path
when truthy, and adds its chunk count to the returned total; a store
failure at chunk j is caught, leaves the j records stored before it
persisted, counts nothing for that source, and the batch continues.  The
returned total therefore counts the chunks of fully indexed sources, not
every successfully stored chunk. -/
theorem c7_orchestrator (fetch : List Char → Except PyExc (List Char))
    (addOk : Nat → Bool) (ct ot fuel : Nat) (s : List Char)
    (rest : List (List Char)) (ctr total : Nat) (stored : List MemRecord) :
    (∀ e, fetch s = .error e →
      indexDocuments fetch addOk ct ot fuel (s :: rest) ctr (total, stored)
        = indexDocuments fetch addOk ct ot fuel rest ctr (total, stored)) ∧
    (∀ text chunks, fetch s = .ok text →
      splitTextSmart text ct ot fuel = some chunks →
      (∀ k, k < chunks.length → addOk (ctr + k) = true) →
      indexDocuments fetch addOk ct ot fuel (s :: rest) ctr (total, stored)
        = indexDocuments fetch addOk ct ot fuel rest (ctr + chunks.length)
            (total + chunks.length, stored ++ recordsOf s chunks)) ∧
    (∀ text chunks j, fetch s = .ok text →
      splitTextSmart text ct ot fuel = some chunks →
      j < chunks.length →
      (∀ k, k < j → addOk (ctr + k) = true) →
      addOk (ctr + j) = false →
      indexDocuments fetch addOk ct ot fuel (s :: rest) ctr (total, stored)
        = indexDocuments fetch addOk ct ot fuel rest (ctr + j + 1)
            (total, stored ++ recordsOf s (chunks.take j))) := by
  refine ⟨?_, ?_, ?_⟩
  · intro e he
    rw [indexDocuments, he]
  · intro text chunks htext hsplit hok
    rw [indexDocuments, htext]
    simp only [hsplit]
    rw [storeChunks_all_ok addOk s chunks 0 ctr stored hok]
    rfl
  · intro text chunks j htext hsplit hlt hok hfail
    rw [indexDocuments, htext]
    simp only [hsplit]
    rw [storeChunks_fail_at addOk s j chunks 0 ctr stored hlt hok hfail]
    rfl

/-- Witness for C7 (amended): a source whose fetch raises is skipped and
the batch result is unchanged. -/
theorem c7_orchestrator_witness :
    indexDocuments (fun _ => .error (.otherError 7)) (fun _ => true) 1 0 9
      ["doc".toList] 0 (0, []) = some (0, []) :=
  ((c7_orchestrator (fun _ => .error (.otherError 7)) (fun _ => true) 1 0 9
    "doc".toList [] 0 0 []).1 (.otherError 7) rfl).trans rfl

/-- Counterexample for C7 as stated: one source yielding two chunks, with
the store failing on the second add call.  One chunk is successfully
stored, yet the call returns 0: the returned count is not the count of
successfully stored chunks. -/
theorem c7_counterexample :
    indexDocuments
        (fun s => if s = "doc".toList then .ok "aaaa\n\nbbbbbbbb".toList
          else .error (.otherError 0))
        (fun n => n == 0) 1 0 10 ["doc".toList] 0 (0, [])
      = some (0, [⟨"aaaa".toList, "doc".toList, 0, none⟩]) ∧
    (0 : Nat) ≠ 1 := by
  exact ⟨by decide, by decide⟩

/-! ## Claim C8: HTML stripper (DocumentIndexer._strip_html, lines 140-158)

Each regex substitution of the source is embedded as a left-to-right
scanner.  The scanners recurse on a fuel argument initialized to the
input length plus one; every recursive call both consumes one unit of
fuel and strictly shortens the remaining input, so the fuel can never be
exhausted before the input is, and the zero-fuel branch is unreachable
from the wrappers. -/

/-- Case-insensitive literal match at the head of the input (models the
re.IGNORECASE flag of lines 146-147). -/
def startsWithCI : List Char → List Char → Bool
  | [], _ => true
  | _ :: _, [] => false
  | p :: ps, c :: cs => (p.toLower == c.toLower) && startsWithCI ps cs

/-- Case-sensitive literal match at the head of the input. -/
def startsWithExact : List Char → List Char → Bool
  | [], _ => true
  | _ :: _, [] => false
  | p :: ps, c :: cs => (p == c) && startsWithExact ps cs

/-- Finds the first case-insensitive occurrence of the pattern and
returns the remainder after it; none when absent (the non-greedy
`.*?close` of the block regexes: shortest match up to the first closing
tag). -/
def dropAfterCI (pat : List Char) : List Char → Option (List Char)
  | [] => none
  | c :: cs =>
    if startsWithCI pat (c :: cs) then some (List.drop pat.length (c :: cs))
    else dropAfterCI pat cs

/-- Matches the regex fragment `[^>]*>`: everything up to and including
the first `>`; none when no `>` remains. -/
def afterOpenTag (s : List Char) : Option (List Char) :=
  match s.dropWhile (· != '>') with
  | '>' :: rest => some rest
  | _ => none

/-- One traversal of `re.sub(open[^>]*>.*?close, "", s)` with DOTALL and
IGNORECASE: at each position try the full block match (open tag prefix,
rest of the open tag, minimal body, closing tag); on success resume after
the match, otherwise emit the character and move on. -/
def removeBlocksGo (openPat closePat : List Char) : Nat → List Char → List Char
  | 0, s => s
  | _ + 1, [] => []
  | fuel + 1, c :: cs =>
    if startsWithCI openPat (c :: cs) then
      match afterOpenTag (List.drop openPat.length (c :: cs)) with
      | some afterTag =>
        match dropAfterCI closePat afterTag with
        | some rest => removeBlocksGo openPat closePat fuel rest
        | none => c :: removeBlocksGo openPat closePat fuel cs
      | none => c :: removeBlocksGo openPat closePat fuel cs
    else c :: removeBlocksGo openPat closePat fuel cs

/-- Removes `open...close` blocks with their contents (lines 146-147). -/
def removeBlocks (openPat closePat : List Char) (s : List Char) : List Char :=
  removeBlocksGo openPat closePat (s.length + 1) s

/-- One traversal of `re.sub(r"<[^>]+>", "", s)` (line 149): a tag is a
`<`, at least one non-`>` character, then `>`. -/
def removeTagsGo : Nat → List Char → List Char
  | 0, s => s
  | _ + 1, [] => []
  | fuel + 1, '<' :: cs =>
    if cs.takeWhile (· != '>') = [] then '<' :: removeTagsGo fuel cs
    else
      match cs.dropWhile (· != '>') with
      | '>' :: rest => removeTagsGo fuel rest
      | _ => '<' :: removeTagsGo fuel cs
  | fuel + 1, c :: cs => c :: removeTagsGo fuel cs

/-- Strips all remaining tags (line 149). -/
def removeTags (s : List Char) : List Char :=
  removeTagsGo (s.length + 1) s

/-- One traversal of Python `str.replace(pat, rep)`: leftmost,
non-overlapping. -/
def replaceAllGo (pat rep : List Char) : Nat → List Char → List Char
  | 0, s => s
  | _ + 1, [] => []
  | fuel + 1, c :: cs =>
    if startsWithExact pat (c :: cs) then
      rep ++ replaceAllGo pat rep fuel (List.drop pat.length (c :: cs))
    else c :: replaceAllGo pat rep fuel cs

/-- Python `str.replace` for a non-empty pattern. -/
def replaceAll (pat rep s : List Char) : List Char :=
  replaceAllGo pat rep (s.length + 1) s

/-- `re.sub(r"\s+", " ", s)` (line 157): every maximal whitespace run
becomes one space. -/
def collapseWs : List Char → List Char
  | [] => []
  | [c] => if isPySpace c then [' '] else [c]
  | c1 :: c2 :: cs =>
    if isPySpace c1 && isPySpace c2 then collapseWs (c2 :: cs)
    else (if isPySpace c1 then ' ' else c1) :: collapseWs (c2 :: cs)

/-- The five entity replacements of lines 151-155, applied in source
order (nbsp, amp, lt, gt, quot). -/
def decodeEntities (s : List Char) : List Char :=
  replaceAll "&quot;".toList ['\"']
    (replaceAll "&gt;".toList ['>']
      (replaceAll "&lt;".toList ['<']
        (replaceAll "&amp;".toList ['&']
          (replaceAll "&nbsp;".toList [' '] s))))

/-- Embeds `_strip_html`: script blocks, style blocks, remaining tags,
entities, whitespace collapse, final strip (lines 146-158). -/
def stripHtml (s : List Char) : List Char :=
  pyStrip (collapseWs (decodeEntities (removeTags
    (removeBlocks "<style".toList "</style>".toList
      (removeBlocks "<script".toList "</script>".toList s)))))

lemma dropWhile_head_not (p : Char → Bool) :
    ∀ (l : List Char) (c : Char), (l.dropWhile p).head? = some c → p c = false := by
  intro l
  induction l with
  | nil => intro c h; simp at h
  | cons a l ih =>
    intro c h
    rw [List.dropWhile_cons] at h
    by_cases hp : p a
    · rw [if_pos hp] at h
      exact ih c h
    · rw [if_neg hp] at h
      simp only [List.head?_cons, Option.some.injEq] at h
      subst h
      simpa using hp

lemma dropWhile_getLast (p : Char → Bool) :
    ∀ l : List Char, l.dropWhile p ≠ [] → (l.dropWhile p).getLast? = l.getLast? := by
  intro l
  induction l with
  | nil => simp
  | cons a l ih =>
    intro h
    rw [List.dropWhile_cons] at h ⊢
    by_cases hp : p a
    · rw [if_pos hp] at h ⊢
      rw [ih h]
      have hl : l ≠ [] := by
        intro he
        rw [he] at h
        simp at h
      rcases l with _ | ⟨b, t⟩
      · exact absurd rfl hl
      · rw [List.getLast?_cons_cons]
    · rw [if_neg hp]

lemma pyStrip_head (s : List Char) (c : Char)
    (h : (pyStrip s).head? = some c) : isPySpace c = false := by
  unfold pyStrip at h
  rw [List.head?_reverse] at h
  have hne : (s.dropWhile isPySpace).reverse.dropWhile isPySpace ≠ [] := by
    intro he
    rw [he] at h
    simp at h
  rw [dropWhile_getLast _ _ hne, List.getLast?_reverse] at h
  exact dropWhile_head_not _ _ _ h

lemma pyStrip_last (s : List Char) (c : Char)
    (h : (pyStrip s).getLast? = some c) : isPySpace c = false := by
  unfold pyStrip at h
  rw [List.getLast?_reverse] at h
  exact dropWhile_head_not _ _ _ h

/-- C8: the HTML stripper is a total function built as the source
pipeline (script blocks, style blocks, tags, the five entities,
whitespace collapse, trim); on the claimed example it yields "Hi there";
and its output never starts or ends with whitespace. -/
theorem c8_strip_html :
    (∀ s, stripHtml s = pyStrip (collapseWs (decodeEntities (removeTags
      (removeBlocks "<style".toList "</style>".toList
        (removeBlocks "<script".toList "</script>".toList s)))))) ∧
    stripHtml "<script>x</script><p>Hi&nbsp;there</p>".toList = "Hi there".toList ∧
    (∀ s c, (stripHtml s).head? = some c → isPySpace c = false) ∧
    (∀ s c, (stripHtml s).getLast? = some c → isPySpace c = false) := by
  refine ⟨fun s => rfl, by decide, ?_, ?_⟩
  · intro s c h
    exact pyStrip_head _ _ h
  · intro s c h
    exact pyStrip_last _ _ h

/-- Witness for C8: the example output starts with a non-whitespace
character. -/
theorem c8_strip_html_witness :
    (stripHtml "<script>x</script><p>Hi&nbsp;there</p>".toList).head? = some 'H' ∧
      isPySpace 'H' = false :=
  ⟨by decide,
    c8_strip_html.2.2.1 "<script>x</script><p>Hi&nbsp;there</p>".toList 'H' (by decide)⟩

end RagIndexer
